import Mathlib

/-!
Verification development for the FloppyCat backup engine.

The Python sources are shallowly embedded: strings are modelled as `List Char`,
Python dictionaries as association lists in insertion order (assignment to an
existing key updates in place, a new key is appended), and the filesystem as an
association list from absolute path to file content.  Worker pools are
serialized: within one stage no ordering is guaranteed between entries, and the
per-entry bodies are independent, so the pool is modelled as a fold over the
fed entries in feeding order.
-/

namespace FloppyCat

/-- Characters of a string literal, the `List Char` view used throughout. -/
def strChars (x : String) : List Char := x.data

/-- Whitespace stripped by Python `str.strip()` (ASCII subset). -/
def isPyWs (c : Char) : Bool :=
  c = ' ' || c = '\t' || c = '\n' || c = '\r' || c = '\x0b' || c = '\x0c'

/-- Python `str.strip()`: drop leading and trailing whitespace. -/
def pyStrip (l : List Char) : List Char :=
  ((l.dropWhile isPyWs).reverse.dropWhile isPyWs).reverse

/-- Python `string.hexdigits`. -/
def hexdigits : List Char := strChars "0123456789abcdefABCDEF"

/-- Membership in Python `string.hexdigits` (`0-9a-fA-F`). -/
def isHexDigitPy (c : Char) : Bool := c ∈ hexdigits

/-- Lowercase hexadecimal characters `[0-9a-f]`. -/
def isLowerHex (c : Char) : Bool := c ∈ strChars "0123456789abcdef"

/-- Auxiliary splitter: Python `str.split(sep)` for a one-character separator. -/
def splitOnCharAux (sep : Char) (cur : List Char) : List Char → List (List Char)
  | [] => [cur.reverse]
  | c :: rest =>
    if c = sep then cur.reverse :: splitOnCharAux sep [] rest
    else splitOnCharAux sep (c :: cur) rest

/-- Python `str.split(sep)` for a one-character separator. -/
def splitOnChar (sep : Char) (l : List Char) : List (List Char) :=
  splitOnCharAux sep [] l

/-- Python `sep.join(parts)` for a one-character separator. -/
def pyJoin (sep : Char) : List (List Char) → List Char
  | [] => []
  | [x] => x
  | x :: y :: rest => x ++ sep :: pyJoin sep (y :: rest)

/-- Universal-newline translation performed by Python's text-mode decoder:
`\r\n` and a lone `\r` both become `\n`. -/
def translateNewlines : List Char → List Char
  | [] => []
  | [c] => if c = '\r' then ['\n'] else [c]
  | c1 :: c2 :: rest =>
    if c1 = '\r' then
      if c2 = '\n' then '\n' :: translateNewlines rest
      else '\n' :: translateNewlines (c2 :: rest)
    else c1 :: translateNewlines (c2 :: rest)

/-- Split translated content on `\n`. -/
def splitNlAux (cur : List Char) : List Char → List (List Char)
  | [] => [cur.reverse]
  | c :: rest =>
    if c = '\n' then cur.reverse :: splitNlAux [] rest
    else splitNlAux (c :: cur) rest

/-- Lines produced by iterating over an open Python text file.  An empty file
yields no lines; content ending in a terminator yields one extra empty string
beyond Python's iteration, which every consumer skips. -/
def pyLines (l : List Char) : List (List Char) :=
  match l with
  | [] => []
  | _ => splitNlAux [] (translateNewlines l)

/-- Association-list lookup (first match), the read side of a Python dict. -/
def alookup {β : Type} : List (List Char × β) → List Char → Option β
  | [], _ => none
  | (k, v) :: t, a => if a = k then some v else alookup t a

/-- Python dict assignment `d[k] = v`: update the existing binding in place,
else append the new binding. -/
def insertOrUpdate {β : Type} : List (List Char × β) → List Char → β → List (List Char × β)
  | [], k, v => [(k, v)]
  | (k0, v0) :: t, k, v =>
    if k = k0 then (k, v) :: t else (k0, v0) :: insertOrUpdate t k v

/-- Python `d1.update(d2)`: fold the incoming bindings into the base dict. -/
def pyDictUpdate {β : Type} (base incoming : List (List Char × β)) : List (List Char × β) :=
  incoming.foldl (fun acc kv => insertOrUpdate acc kv.1 kv.2) base

/-- Keys of a dict model. -/
def dictKeys {β : Type} (d : List (List Char × β)) : List (List Char) :=
  d.map Prod.fst

/-- `os.path.normpath` for POSIX separators, translated from `posixpath.normpath`. -/
def normpath (p : List Char) : List Char :=
  if p = [] then ['.']
  else
    let initialSlashes : Nat :=
      if p.take 1 = ['/'] then
        if p.take 2 = ['/', '/'] && !(p.take 3 = ['/', '/', '/']) then 2 else 1
      else 0
    let comps := splitOnChar '/' p
    let newComps := comps.foldl (fun acc comp =>
      if comp = [] || comp = ['.'] then acc
      else if comp ≠ ['.', '.'] ∨ (initialSlashes = 0 ∧ acc = []) ∨
          (acc ≠ [] ∧ acc.getLast? = some ['.', '.']) then acc ++ [comp]
      else if acc ≠ [] then acc.dropLast
      else acc) []
    let joined := pyJoin '/' newComps
    let out := List.replicate initialSlashes '/' ++ joined
    if out = [] then ['.'] else out

/-- `os.path.join(root, rel)` for a relative `rel` and a normalized `root`
without a trailing separator. -/
def joinPath (root rel : List Char) : List Char := root ++ '/' :: rel

/-! ## Manifest codec (`checksums.py`) -/

/-- The configured checksum algorithm (`checksum_alg` config value). -/
inductive Alg | md5 | sha256 | sha512
deriving DecidableEq, Repr

/-- Required hex digest length for each algorithm, as hard-coded in
`parse_checksums_from_file`. -/
def Alg.requiredLen : Alg → Nat
  | .md5 => 32
  | .sha256 => 64
  | .sha512 => 128

/-- A digest record value: the `{"root": ..., "checksum": ...}` dict of
`checksums.py`. -/
structure CsRec where
  root : List Char
  checksum : List Char
deriving DecidableEq, Repr

/-- One iteration of the line loop of `parse_checksums_from_file`: returns the
record the line contributes, or `none` when the line is skipped.  The source's
per-character hexadecimal check over the digest is a loop whose `continue`
re-enters that same inner loop, so it rejects nothing; it is therefore
translated as having no effect. -/
def parseChecksumLine (alg : Alg) (rootDir : List Char) (line0 : List Char) :
    Option (List Char × CsRec) :=
  let line := (line0.filter (fun c => ¬ c = '\n')).filter (fun c => ¬ c = '\r')
  let line := pyStrip line
  match line with
  | [] => none
  | c0 :: _ =>
    if ¬ isHexDigitPy c0 then none
    else
      let lineSplitted := splitOnChar '*' line
      if lineSplitted.length ≤ 1 then none
      else
        let checksum := pyStrip lineSplitted.headI
        if checksum.length ≠ alg.requiredLen then none
        else
          let filepath := pyJoin '*' lineSplitted.tail
          if filepath = [] then none
          else some (normpath filepath, ⟨rootDir, checksum⟩)

/-- The line loop of `parse_checksums_from_file`, folding accepted records
into the checksum dict. -/
def parseChecksumsFold (alg : Alg) (rootDir : List Char)
    (acc : List (List Char × CsRec)) (lines : List (List Char)) :
    List (List Char × CsRec) :=
  lines.foldl (fun acc line =>
    match parseChecksumLine alg rootDir line with
    | none => acc
    | some (k, v) => insertOrUpdate acc k v) acc

/-- `parse_checksums_from_file`: the argument is the content of the checksum
file when it exists (`none` models a missing file).  Produces the checksum
dict keyed by normalized path; a later line for the same key overwrites. -/
def parse_checksums_from_file (alg : Alg) (rootDir : List Char)
    (content : Option (List Char)) : List (List Char × CsRec) :=
  match content with
  | none => []
  | some cs => parseChecksumsFold alg rootDir [] (pyLines cs)

/-- The final manifest writer of `Backupper.start_backup` stage 7: one
`f"{checksum} *{path_relative}\n"` line per record in iteration order. -/
def writeChecksums : List (List Char × CsRec) → List Char
  | [] => []
  | (p, v) :: rest => v.checksum ++ ' ' :: '*' :: p ++ '\n' :: writeChecksums rest

/-- Well-formed digest-record set, following the spec's data-model invariant:
distinct keys, uniform root, digests of the algorithm's exact hex length in
lowercase hexadecimal, nonempty paths. -/
abbrev WellFormedRecords (alg : Alg) (rootDir : List Char)
    (records : List (List Char × CsRec)) : Prop :=
  (dictKeys records).Nodup ∧
  ∀ pd ∈ records, pd.2.root = rootDir ∧ pd.2.checksum.length = alg.requiredLen ∧
    (∀ c ∈ pd.2.checksum, isLowerHex c = true) ∧ pd.1 ≠ []

/-- No path of the record set contains a line terminator. -/
abbrev NoLineTerminators (records : List (List Char × CsRec)) : Prop :=
  ∀ pd ∈ records, '\n' ∉ pd.1 ∧ '\r' ∉ pd.1

/-! ## Mirror-side path matching (`delete_files.py`) -/

/-- Loop body of `is_path_relative_to`, walking the parent segments while
greedily advancing through the child segments.  `i` is the enumeration index,
`childIdx` the position in `child`, `lastMatch` the index of the last parent
segment that matched (`-1` after a reset).  Returns `none` when the source
would raise `IndexError` (empty child list). -/
def iprtLoop (child : List (List Char)) :
    List (List Char) → Nat → Nat → Int → Option Int
  | [], _, _, lastMatch => some lastMatch
  | p :: rest, i, childIdx, _lastMatch =>
    match child.get? childIdx with
    | none => none
    | some c =>
      if p = c then
        if childIdx + 1 ≥ child.length then some (i : Int)
        else iprtLoop child rest (i + 1) (childIdx + 1) (i : Int)
      else iprtLoop child rest (i + 1) 0 (-1)

/-- `is_path_relative_to(parent_path, child_path)`: `some b` is the returned
boolean, `none` the `IndexError` raised on an empty `child_path` with a
nonempty `parent_path`. -/
def is_path_relative_to (parent child : List (List Char)) : Option Bool :=
  (iprtLoop child parent 0 0 (-1)).map (fun lm => lm = (parent.length : Int) - 1)

/-- The specification's reading of `is_path_relative_to`, stated from the
spec's words for comparison with the source translation above: some suffix of
the parent segments, containing the parent's terminal segment, equals a
prefix of the child segments. -/
def suffixContinuationSpec (parent child : List (List Char)) : Prop :=
  ∃ k, 1 ≤ k ∧ k ≤ parent.length ∧ k ≤ child.length ∧
    parent.drop (parent.length - k) = child.take k

/-! ## Deletion policy (`delete_files.py`) -/

/-- The partition an entry of the mirror tree belongs to (`tree_type`). -/
inductive TreeType | files | dirs | unknown
deriving DecidableEq, Repr

/-- The key sets of the three partitions of the input tree; only membership of
`filepath_rel in input_tree[tree_type]` matters to the deletion policy. -/
structure InputTreeKeys where
  files : List (List Char)
  dirs : List (List Char)
  unknown : List (List Char)
deriving Repr

/-- Keys of the partition selected by `tree_type`. -/
def InputTreeKeys.partOf (t : InputTreeKeys) : TreeType → List (List Char)
  | .files => t.files
  | .dirs => t.dirs
  | .unknown => t.unknown

/-- `in_skipped` of the `delete_files` loop: the entry's normalized relative
path, split on the separator, matches some skipped entry via
`is_path_relative_to`. -/
def inSkippedOf (skippedPartsList : List (List (List Char))) (filepathRel : List Char) : Bool :=
  let relParts := splitOnChar '/' (normpath filepathRel)
  skippedPartsList.any (fun sk => is_path_relative_to sk relParts = some true)

/-- The `delete_flag` computation of `delete_files` (lines 156-175) for an
entry that still exists on disk: `true` means the entry proceeds to deletion,
`false` means it is kept. -/
def delete_files_decision (inputTree : InputTreeKeys)
    (skippedPartsList : List (List (List Char))) (deleteSkipped : Bool)
    (treeType : TreeType) (filepathRel : List Char) : Bool :=
  let inSkipped := inSkippedOf skippedPartsList filepathRel
  let present := decide (filepathRel ∈ inputTree.partOf treeType)
  if inSkipped || present then
    if !inSkipped || (inSkipped && !deleteSkipped) then false else true
  else true

/-! ## Copy decisions (`copy_entries.py`) -/

/-- The outcome of one `copy_entries` loop iteration. -/
inductive CopyAction
  | skippedMissingSource
  | skippedChecksumMatch
  | skippedMkdirFailed
  | skippedSymlinkExists
  | createdSymlink
  | copiedFile
deriving DecidableEq, Repr

/-- The filesystem facts one `copy_entries` iteration observes about its entry;
digests are the dict lookups `checksums_input[rel]` / `checksums_output[rel]`
(`none` when the relative path is absent from the dict). -/
structure CopyCtx where
  sourceExists : Bool
  destExists : Bool
  checksumIn : Option (List Char)
  checksumOut : Option (List Char)
  destParentExists : Bool
  makeDirsOk : Bool
  copyAsSymlink : Bool
  equivalentLinkExists : Bool
deriving Repr

/-- Python truthiness of an optional string (`None` and `""` are falsy). -/
def truthy : Option (List Char) → Bool
  | none => false
  | some s => s ≠ []

/-- One `copy_entries` iteration (lines 232-295) as a decision function.  A
missing key in `checksums_input` leaves `checksum_input = None` and the loop
continues; no error path exists for it. -/
def copy_entries_step (ctx : CopyCtx) : CopyAction :=
  if !ctx.sourceExists then .skippedMissingSource
  else if ctx.destExists && truthy ctx.checksumIn && truthy ctx.checksumOut &&
      ctx.checksumOut = ctx.checksumIn then .skippedChecksumMatch
  else if !ctx.destParentExists && !ctx.makeDirsOk then .skippedMkdirFailed
  else if ctx.copyAsSymlink then
    if ctx.destExists && ctx.equivalentLinkExists then .skippedSymlinkExists
    else .createdSymlink
  else .copiedFile

/-! ## Filesystem model and checksum pool -/

/-- The filesystem as a mapping from absolute path to file content. -/
structure PyFS where
  files : List (List Char × List Char)
deriving DecidableEq, Repr

/-- Content of the file at `p`, `none` when no such file exists. -/
def fsLookup (fs : PyFS) (p : List Char) : Option (List Char) := alookup fs.files p

/-- `open(p, "a+")` followed by a single write: append to the existing
content, or create the file. -/
def fsAppend (fs : PyFS) (p line : List Char) : PyFS :=
  match fsLookup fs p with
  | none => ⟨fs.files ++ [(p, line)]⟩
  | some old => ⟨insertOrUpdate fs.files p (old ++ line)⟩

/-- One `calculate_checksums` worker iteration (`checksums.py` lines 227-258)
for the queue item `(rel, root)`: skip when the file is gone, otherwise digest
its content with `hashFn`, append a manifest line when an output file is
configured, and emit the record.  `outAbsolute` is `output_as_absolute_paths`. -/
def calculate_checksums_step (hashFn : List Char → List Char)
    (outFile : Option (List Char)) (outAbsolute : Bool)
    (acc : List (List Char × CsRec)) (fs : PyFS) (rel root : List Char) :
    List (List Char × CsRec) × PyFS :=
  let abs := joinPath root rel
  match fsLookup fs abs with
  | none => (acc, fs)
  | some content =>
    let checksum := hashFn content
    let fileWrite := if outAbsolute then abs else rel
    let fs2 := match outFile with
      | none => fs
      | some f => fsAppend fs f (checksum ++ ' ' :: '*' :: fileWrite ++ ['\n'])
    (insertOrUpdate acc rel ⟨root, checksum⟩, fs2)

/-- The checksum pool of `Backupper._calculate_checksum`: the filler thread
feeds every file of `files_tree` not excluded by `exclude_checksums`, and the
workers fold `calculate_checksums_step` over the fed items.  The pool is
serialized in feeding order (the collected dict is keyed by relative path and
per-entry work is independent). -/
def calculate_checksum_run (hashFn : List Char → List Char)
    (outFile : Option (List Char)) (outAbsolute : Bool)
    (excludeChecksums : Option (List (List Char × CsRec)))
    (filesTree : List (List Char × List Char)) (fs : PyFS) :
    List (List Char × CsRec) × PyFS :=
  filesTree.foldl (fun st item =>
    match excludeChecksums with
    | some excl =>
      if item.1 ∈ dictKeys excl then st
      else calculate_checksums_step hashFn outFile outAbsolute st.1 st.2 item.1 item.2
    | none => calculate_checksums_step hashFn outFile outAbsolute st.1 st.2 item.1 item.2) ([], fs)

/-! ## Orchestrator: validation run (`Backupper.validate`) -/

/-- `f"checksums.{checksum_alg.lower()}"`. -/
def manifestFileName : Alg → List Char
  | .md5 => strChars "checksums.md5"
  | .sha256 => strChars "checksums.sha256"
  | .sha512 => strChars "checksums.sha512"

/-- The `files` partition of the tree `Backupper._generate_tree` builds over
the destination: every file strictly below `outDir` keyed by its path relative
to `outDir` (the root), paired with that root.  The destination itself is in
the ignore list; the manifest file is enumerated like any other file. -/
def mirrorFiles (fs : PyFS) (outDir : List Char) : List (List Char × List Char) :=
  fs.files.filterMap (fun pc =>
    if (outDir ++ ['/']).isPrefixOf pc.1 then
      some (pc.1.drop (outDir.length + 1), outDir)
    else none)

/-- One iteration of stage 4 of `Backupper.validate` (lines 1596-1633) on the
`(match, not_match, not_exist)` counters.  `os.path.samefile` on two existing
paths is modelled as path equality. -/
def validate_compare_step (fs : PyFS) (outDir checksumFileOut : List Char)
    (parsed : List (List Char × CsRec)) (counters : Nat × Nat × Nat)
    (kv : List Char × CsRec) : Nat × Nat × Nat :=
  let abs := joinPath outDir kv.1
  if (fsLookup fs abs).isSome && (fsLookup fs checksumFileOut).isSome &&
      abs = checksumFileOut then counters
  else
    let checksumOld := (alookup parsed kv.1).map CsRec.checksum
    if !truthy checksumOld then (counters.1, counters.2.1, counters.2.2 + 1)
    else if checksumOld = some kv.2.checksum then
      (counters.1 + 1, counters.2.1, counters.2.2)
    else (counters.1, counters.2.1 + 1, counters.2.2)

/-- Stage 4 of `Backupper.validate`: fold the comparison over the freshly
computed checksums, starting from zeroed counters. -/
def validate_compare (fs : PyFS) (outDir checksumFileOut : List Char)
    (computed parsed : List (List Char × CsRec)) : Nat × Nat × Nat :=
  computed.foldl (validate_compare_step fs outDir checksumFileOut parsed) (0, 0, 0)

/-- Observable outcome of a validation run: terminal exit code, how many of
the four stages were entered, the three comparison counters, and the
filesystem when the run finishes. -/
structure ValidateResult where
  exitCode : Nat
  stagesRun : Nat
  matchCount : Nat
  notMatchCount : Nat
  notExistCount : Nat
  fs : PyFS
deriving DecidableEq, Repr

/-- `Backupper.validate` (lines 1485-1667).  Stage 1 raises when the manifest
file does not exist; the handler turns that into `EXIT_CODE_ERROR = 1` with no
later stage entered.  Otherwise: parse the manifest, enumerate the mirror,
recompute its digests with the manifest output file disabled, and compare. -/
def validate_run (hashFn : List Char → List Char) (alg : Alg)
    (outDir : List Char) (fs : PyFS) : ValidateResult :=
  let checksumFileOut := joinPath outDir (manifestFileName alg)
  match fsLookup fs checksumFileOut with
  | none => ⟨1, 1, 0, 0, 0, fs⟩
  | some content =>
    let checksumsParsed := parse_checksums_from_file alg outDir (some content)
    let outputFilesTree := mirrorFiles fs outDir
    let calcRes := calculate_checksum_run hashFn none false none outputFilesTree fs
    let counters := validate_compare calcRes.2 outDir checksumFileOut calcRes.1 checksumsParsed
    ⟨0, 4, counters.1, counters.2.1, counters.2.2, calcRes.2⟩

/-! ## Orchestrator: backup stage 3 (`Backupper.start_backup` lines 1241-1266) -/

/-- Stage 3 of `Backupper.start_backup`: parse the existing manifest unless
`recalculate_checksum` is set, compute digests of the mirror files with the
parsed records as the exclude set, then merge via
`checksums_output.update(checksums_output_parsed)`.  Returns
`(parsed, computed, merged)`. -/
def backup_stage3 (hashFn : List Char → List Char) (alg : Alg)
    (outDir : List Char) (recalculateChecksum : Bool)
    (outputFilesTree : List (List Char × List Char)) (fs : PyFS) :
    List (List Char × CsRec) × List (List Char × CsRec) × List (List Char × CsRec) :=
  let checksumFileOut := joinPath outDir (manifestFileName alg)
  let checksumsOutputParsed :=
    if recalculateChecksum then []
    else parse_checksums_from_file alg outDir (fsLookup fs checksumFileOut)
  let computed :=
    (calculate_checksum_run hashFn none false (some checksumsOutputParsed)
      outputFilesTree fs).1
  (checksumsOutputParsed, computed, pyDictUpdate computed checksumsOutputParsed)

/-! ## Input validation and launch guard
(`Backupper.parse_input_entries`, `GUIHandler.backup_start`) -/

/-- `os.path.relpath(p, os.path.dirname(p))` for a normalized, non-root `p`:
the final path segment. -/
def leafRelKey (p : List Char) : List Char :=
  (splitOnChar '/' p).getLastD []

/-- The exceptions `Backupper.parse_input_entries` can raise. -/
inductive ParseEntriesError
  | duplicatedPath (p : List Char)
  | pathNotExists (p : List Char)
deriving DecidableEq, Repr

/-- Loop of `Backupper.parse_input_entries` over the configured
`{"path", "skip"}` records.  Existence is looked up in the `PyFS` path map
(which lists every existing path).  Sequencing is faithful: empty paths are
skipped with a warning, a non-skipped duplicate of a non-skipped accepted
entry raises, a non-skipped missing path raises. -/
def parse_input_entries_go (fs : PyFS) (acc : List (List Char × Bool)) :
    List (List Char × Bool) → Except ParseEntriesError (List (List Char × Bool))
  | [] => .ok acc
  | (path0, skipCurrent) :: rest =>
    let inputPath0 := pyStrip path0
    if inputPath0 = [] then parse_input_entries_go fs acc rest
    else
      let inputPath := normpath inputPath0
      let inputPathRel := leafRelKey inputPath
      if acc.any (fun e =>
          normpath (leafRelKey e.1) = normpath inputPathRel && !e.2 && !skipCurrent) then
        .error (.duplicatedPath inputPath)
      else if !skipCurrent && !(fsLookup fs inputPath).isSome then
        .error (.pathNotExists inputPath)
      else parse_input_entries_go fs (insertOrUpdate acc inputPath skipCurrent) rest

/-- `Backupper.parse_input_entries` (lines 218-273). -/
def parse_input_entries (fs : PyFS) (inputPaths : List (List Char × Bool)) :
    Except ParseEntriesError (List (List Char × Bool)) :=
  parse_input_entries_go fs [] inputPaths

/-- Outcome of pressing start in `GUIHandler.backup_start`: either the backup
thread was launched (carrying its exit code), or the request was refused with
an error dialog before `start_backup` ran. -/
inductive GuiOutcome
  | launched (exitCode : Nat)
  | refusedNoEntries
  | refusedParseError
  | refusedNoValidEntries
deriving DecidableEq, Repr

/-- The guard chain of `GUIHandler.backup_start` (lines 224-296): refuse when
the configured entry list is empty, when `parse_input_entries` raises, or when
it returns no valid entries; otherwise run `start_backup` (abstracted as
`startBackup`, the only step that touches the filesystem). -/
def gui_backup_start (startBackup : List (List Char × Bool) → PyFS → PyFS × Nat)
    (inputPaths : List (List Char × Bool)) (fs : PyFS) : PyFS × GuiOutcome :=
  if inputPaths.length = 0 then (fs, .refusedNoEntries)
  else
    match parse_input_entries fs inputPaths with
    | .error _ => (fs, .refusedParseError)
    | .ok entries =>
      if entries.length = 0 then (fs, .refusedNoValidEntries)
      else
        let r := startBackup entries fs
        (r.1, .launched r.2)

/-! ## Dictionary lemmas -/

theorem alookup_insertOrUpdate {β : Type} (d : List (List Char × β)) (k a : List Char) (v : β) :
    alookup (insertOrUpdate d k v) a = if a = k then some v else alookup d a := by
  induction d with
  | nil => simp [insertOrUpdate, alookup]
  | cons hd t ih =>
    obtain ⟨k0, v0⟩ := hd
    by_cases hk : k = k0
    · subst hk
      by_cases hak : a = k <;> simp [insertOrUpdate, alookup, hak]
    · by_cases ha0 : a = k0 <;> by_cases hak : a = k <;>
        simp_all [insertOrUpdate, alookup, hk, ha0, hak, ih]

theorem alookup_eq_none_of_not_mem {β : Type} :
    ∀ {d : List (List Char × β)} {a : List Char}, a ∉ dictKeys d → alookup d a = none
  | [], _, _ => rfl
  | (k0, _) :: t, a, h => by
    have h1 : ¬ a = k0 := fun he => h (he ▸ List.mem_cons_self k0 (dictKeys t))
    have h2 : a ∉ dictKeys t := fun hm => h (List.mem_cons_of_mem k0 hm)
    show (if a = k0 then _ else alookup t a) = none
    rw [if_neg h1]
    exact alookup_eq_none_of_not_mem h2

theorem mem_dictKeys_of_alookup {β : Type} :
    ∀ {d : List (List Char × β)} {a : List Char} {v : β},
      alookup d a = some v → a ∈ dictKeys d
  | [], _, _, h => by exact absurd h (by intro hh; cases hh)
  | (k0, v0) :: t, a, v, h => by
    by_cases ha : a = k0
    · exact ha ▸ List.mem_cons_self k0 (dictKeys t)
    · have h2 : alookup t a = some v := by
        have : (if a = k0 then some v0 else alookup t a) = some v := h
        rwa [if_neg ha] at this
      exact List.mem_cons_of_mem k0 (mem_dictKeys_of_alookup h2)

theorem mem_of_mem_insertOrUpdate {β : Type} :
    ∀ {d : List (List Char × β)} {k : List Char} {v : β} {pd : List Char × β},
      pd ∈ insertOrUpdate d k v → pd ∈ d ∨ pd = (k, v)
  | [], k, v, pd, h => by
    rcases List.mem_singleton.1 h with h2
    exact Or.inr h2
  | (k0, v0) :: t, k, v, pd, h => by
    by_cases hk : k = k0
    · rw [insertOrUpdate, if_pos hk] at h
      rcases List.mem_cons.1 h with h2 | h2
      · exact Or.inr h2
      · exact Or.inl (List.mem_cons_of_mem _ h2)
    · rw [insertOrUpdate, if_neg hk] at h
      rcases List.mem_cons.1 h with h2 | h2
      · exact Or.inl (List.mem_cons.2 (Or.inl h2))
      · rcases mem_of_mem_insertOrUpdate h2 with h3 | h3
        · exact Or.inl (List.mem_cons_of_mem _ h3)
        · exact Or.inr h3

theorem mem_dictKeys_insertOrUpdate {β : Type} :
    ∀ {d : List (List Char × β)} {k a : List Char} {v : β},
      a ∈ dictKeys (insertOrUpdate d k v) ↔ a ∈ dictKeys d ∨ a = k
  | [], k, a, v => by
    constructor
    · intro h
      exact Or.inr (List.mem_singleton.1 h)
    · rintro (h | h)
      · cases h
      · exact h ▸ List.mem_singleton.2 rfl
  | (k0, v0) :: t, k, a, v => by
    by_cases hk : k = k0
    · rw [insertOrUpdate, if_pos hk]
      subst hk
      show a ∈ k :: dictKeys t ↔ a ∈ k :: dictKeys t ∨ a = k
      simp only [List.mem_cons]
      tauto
    · rw [insertOrUpdate, if_neg hk]
      show a ∈ k0 :: dictKeys (insertOrUpdate t k v) ↔ a ∈ k0 :: dictKeys t ∨ a = k
      simp only [List.mem_cons, mem_dictKeys_insertOrUpdate]
      tauto

theorem dictKeys_insertOrUpdate_nodup {β : Type} :
    ∀ {d : List (List Char × β)} {k : List Char} {v : β},
      (dictKeys d).Nodup → (dictKeys (insertOrUpdate d k v)).Nodup
  | [], k, v, _ => List.nodup_singleton k
  | (k0, v0) :: t, k, v, h => by
    have h0 : k0 ∉ dictKeys t ∧ (dictKeys t).Nodup := by
      have : (k0 :: dictKeys t).Nodup := h
      exact ⟨(List.nodup_cons.1 this).1, (List.nodup_cons.1 this).2⟩
    by_cases hk : k = k0
    · rw [insertOrUpdate, if_pos hk]
      subst hk
      exact List.nodup_cons.2 ⟨h0.1, h0.2⟩
    · rw [insertOrUpdate, if_neg hk]
      show (k0 :: dictKeys (insertOrUpdate t k v)).Nodup
      refine List.nodup_cons.2 ⟨?_, dictKeys_insertOrUpdate_nodup h0.2⟩
      intro hmem
      rcases mem_dictKeys_insertOrUpdate.1 hmem with h2 | h2
      · exact h0.1 h2
      · exact hk h2.symm

theorem insertOrUpdate_of_not_mem {β : Type} :
    ∀ {d : List (List Char × β)} {k : List Char} {v : β},
      k ∉ dictKeys d → insertOrUpdate d k v = d ++ [(k, v)]
  | [], _, _, _ => rfl
  | (k0, v0) :: t, k, v, h => by
    have h1 : ¬ k = k0 := fun he => h (he ▸ List.mem_cons_self k0 (dictKeys t))
    have h2 : k ∉ dictKeys t := fun hm => h (List.mem_cons_of_mem k0 hm)
    rw [insertOrUpdate, if_neg h1, insertOrUpdate_of_not_mem h2]
    rfl

theorem alookup_pyDictUpdate {β : Type} (incoming : List (List Char × β)) :
    ∀ (base : List (List Char × β)), (dictKeys incoming).Nodup → ∀ (a : List Char),
      alookup (pyDictUpdate base incoming) a =
        (alookup incoming a <|> alookup base a) := by
  induction incoming with
  | nil =>
    intro base _ a
    show alookup base a = (none <|> alookup base a)
    rw [Option.none_orElse]
  | cons hd t ih =>
    intro base h a
    rcases hd with ⟨k0, v0⟩
    have h0 : k0 ∉ dictKeys t ∧ (dictKeys t).Nodup := by
      have : (k0 :: dictKeys t).Nodup := h
      exact ⟨(List.nodup_cons.1 this).1, (List.nodup_cons.1 this).2⟩
    have step : pyDictUpdate base ((k0, v0) :: t) = pyDictUpdate (insertOrUpdate base k0 v0) t := rfl
    rw [step, ih _ h0.2 a]
    by_cases ha : a = k0
    · subst ha
      rw [alookup_eq_none_of_not_mem h0.1]
      show (none <|> alookup (insertOrUpdate base a v0) a) =
        ((if a = a then some v0 else alookup t a) <|> alookup base a)
      rw [Option.none_orElse, alookup_insertOrUpdate, if_pos rfl, if_pos rfl,
        Option.some_orElse]
    · show (alookup t a <|> alookup (insertOrUpdate base k0 v0) a) =
        ((if a = k0 then some v0 else alookup t a) <|> alookup base a)
      rw [alookup_insertOrUpdate, if_neg ha, if_neg ha]

/-! ## Claim C7: empty input list is refused before stage 1 -/

/-- C7: with an empty configured input entry list, the launch guard refuses
with an error before `start_backup` (stage 1) can run, for every possible
backup behaviour, and the filesystem — in particular the destination
directory — is returned untouched. -/
theorem c7_empty_input_refused
    (startBackup : List (List Char × Bool) → PyFS → PyFS × Nat) (fs : PyFS) :
    gui_backup_start startBackup [] fs = (fs, GuiOutcome.refusedNoEntries) := rfl

/-! ## Claim C2: deletion policy for entries present in the input tree -/

/-- C2 counterexample: an entry whose relative path is present in the `files`
partition of the input tree, but which also lies under a skipped input path,
is deleted when `delete_skipped` is set — refuting the claim that presence in
the partition alone keeps it. -/
theorem c2_counterexample :
    strChars "s/f" ∈ (InputTreeKeys.mk [strChars "s/f"] [] []).partOf TreeType.files ∧
    inSkippedOf [[strChars "s"]] (strChars "s/f") = true ∧
    delete_files_decision (InputTreeKeys.mk [strChars "s/f"] [] []) [[strChars "s"]]
      true TreeType.files (strChars "s/f") = true := by
  decide

/-- C2 amended: a mirror entry that still exists is kept iff it is present in
the corresponding partition and not under a skipped path, or it is under a
skipped path and `delete_skipped` is false; in particular an entry present in
the partition that also lies under a skipped path is deleted when
`delete_skipped` is set. -/
theorem c2_amended (t : InputTreeKeys) (sk : List (List (List Char))) (ds : Bool)
    (tt : TreeType) (rel : List Char) :
    delete_files_decision t sk ds tt rel = false ↔
      ((rel ∈ t.partOf tt ∧ inSkippedOf sk rel = false) ∨
        (inSkippedOf sk rel = true ∧ ds = false)) := by
  unfold delete_files_decision
  cases hS : inSkippedOf sk rel <;> by_cases hP : rel ∈ t.partOf tt <;> cases ds <;>
    simp [hS, hP]

/-! ## Claim C6: copy-worker digest lookups -/

/-- C6 counterexample: a copy entry whose source exists but whose relative
path is absent from the input digest dict is not treated as an error — the
entry is simply copied (`checksum_input` stays `None` and the incremental
skip cannot fire). -/
theorem c6_counterexample :
    (CopyCtx.mk true true none (some (strChars "bb")) true true false false).checksumIn
        = none ∧
    copy_entries_step (CopyCtx.mk true true none (some (strChars "bb")) true true false false)
        = CopyAction.copiedFile := by
  decide

/-- C6 amended: the absence of the entry's relative path from the input digest
dict is not an error (the lookup silently yields `None`); the incremental
shortcut skips the entry exactly when the destination exists and both digests
are present (truthy) and equal. -/
theorem c6_amended (ctx : CopyCtx) (h : ctx.sourceExists = true) :
    copy_entries_step ctx = CopyAction.skippedChecksumMatch ↔
      (ctx.destExists = true ∧ truthy ctx.checksumIn = true ∧
        truthy ctx.checksumOut = true ∧ ctx.checksumOut = ctx.checksumIn) := by
  unfold copy_entries_step
  by_cases hc : (ctx.destExists && truthy ctx.checksumIn && truthy ctx.checksumOut &&
      decide (ctx.checksumOut = ctx.checksumIn)) = true
  · simp only [Bool.and_eq_true, decide_eq_true_eq] at hc
    simp [h, hc.1.1.1, hc.1.1.2, hc.1.2, hc.2]
  · simp only [Bool.and_eq_true, decide_eq_true_eq, not_and] at hc
    simp only [h, Bool.not_true, Bool.false_eq_true, if_false]
    split_ifs <;> simp_all

/-- Witness for `c6_amended` at a concrete context. -/
theorem c6_amended_witness :
    (CopyCtx.mk true true (some (strChars "aa")) (some (strChars "aa"))
        true true false false).sourceExists = true ∧
    (copy_entries_step (CopyCtx.mk true true (some (strChars "aa")) (some (strChars "aa"))
        true true false false) = CopyAction.skippedChecksumMatch ↔
      ((CopyCtx.mk true true (some (strChars "aa")) (some (strChars "aa"))
          true true false false).destExists = true ∧
        truthy (CopyCtx.mk true true (some (strChars "aa")) (some (strChars "aa"))
          true true false false).checksumIn = true ∧
        truthy (CopyCtx.mk true true (some (strChars "aa")) (some (strChars "aa"))
          true true false false).checksumOut = true ∧
        (CopyCtx.mk true true (some (strChars "aa")) (some (strChars "aa"))
          true true false false).checksumOut =
          (CopyCtx.mk true true (some (strChars "aa")) (some (strChars "aa"))
            true true false false).checksumIn)) :=
  ⟨rfl, c6_amended _ rfl⟩

/-! ## Claim C10: validation never modifies the filesystem -/

theorem calculate_checksums_step_fs_none (hashFn : List Char → List Char) (outAbs : Bool)
    (acc : List (List Char × CsRec)) (fs : PyFS) (rel root : List Char) :
    (calculate_checksums_step hashFn none outAbs acc fs rel root).2 = fs := by
  simp only [calculate_checksums_step]
  cases fsLookup fs (joinPath root rel) <;> rfl

theorem calculate_checksum_run_fs_none (hashFn : List Char → List Char) (outAbs : Bool)
    (excl : Option (List (List Char × CsRec))) (files : List (List Char × List Char))
    (fs : PyFS) : (calculate_checksum_run hashFn none outAbs excl files fs).2 = fs := by
  unfold calculate_checksum_run
  have h : ∀ (l : List (List Char × List Char)) (st : List (List Char × CsRec) × PyFS),
      (l.foldl (fun st item =>
        match excl with
        | some excl2 =>
          if item.1 ∈ dictKeys excl2 then st
          else calculate_checksums_step hashFn none outAbs st.1 st.2 item.1 item.2
        | none => calculate_checksums_step hashFn none outAbs st.1 st.2 item.1 item.2)
        st).2 = st.2 := by
    intro l
    induction l with
    | nil => intro st; rfl
    | cons hd t ih =>
      intro st
      rw [List.foldl_cons, ih]
      cases excl with
      | none => exact calculate_checksums_step_fs_none hashFn outAbs st.1 st.2 hd.1 hd.2
      | some excl2 =>
        by_cases hm : hd.1 ∈ dictKeys excl2
        · simp [hm]
        · simp [hm, calculate_checksums_step_fs_none]
  exact h files ([], fs)

/-- C10: a validation run returns the filesystem unchanged — it copies,
deletes and creates nothing, and the digest workers it launches are invoked
with the manifest output file disabled, so they never append a manifest
line. -/
theorem c10_validate_never_writes (hashFn : List Char → List Char) (alg : Alg)
    (outDir : List Char) (fs : PyFS) : (validate_run hashFn alg outDir fs).fs = fs := by
  simp only [validate_run]
  cases hm : fsLookup fs (joinPath outDir (manifestFileName alg)) with
  | none => rfl
  | some content =>
    simpa using calculate_checksum_run_fs_none hashFn false none (mirrorFiles fs outDir) fs

/-! ## Claim C8: missing manifest is fatal for validation -/

/-- C8: when the destination holds no manifest file for the selected
algorithm, validation terminates with exit code `ERROR = 1` after stage 1
only: the mirror is not enumerated, no digest is recomputed, every comparison
counter stays zero, and the filesystem is untouched. -/
theorem c8_missing_manifest_fatal (hashFn : List Char → List Char) (alg : Alg)
    (outDir : List Char) (fs : PyFS)
    (h : fsLookup fs (joinPath outDir (manifestFileName alg)) = none) :
    validate_run hashFn alg outDir fs = ⟨1, 1, 0, 0, 0, fs⟩ := by
  simp only [validate_run]
  rw [h]

/-- Witness for `c8_missing_manifest_fatal`: an empty destination. -/
theorem c8_missing_manifest_fatal_witness :
    fsLookup ⟨[]⟩ (joinPath (strChars "/bk") (manifestFileName Alg.md5)) = none ∧
    validate_run (fun c => c) Alg.md5 (strChars "/bk") ⟨[]⟩ = ⟨1, 1, 0, 0, 0, ⟨[]⟩⟩ :=
  ⟨by decide, c8_missing_manifest_fatal (fun c => c) Alg.md5 (strChars "/bk") ⟨[]⟩ (by decide)⟩

/-! ## Claim C9: comparison iterates only over recomputed digests -/

theorem validate_compare_step_insert_ne (fs : PyFS) (outDir mf : List Char)
    (parsed : List (List Char × CsRec)) (k : List Char) (v : CsRec)
    (counters : Nat × Nat × Nat) (kv : List Char × CsRec) (h : ¬ kv.1 = k) :
    validate_compare_step fs outDir mf (insertOrUpdate parsed k v) counters kv =
      validate_compare_step fs outDir mf parsed counters kv := by
  simp only [validate_compare_step, alookup_insertOrUpdate, if_neg h]

/-- C9: the stage-4 comparison loop folds only over the freshly recomputed
digests of files present in the mirror; adding a manifest record for a
relative path that was not recomputed (its file no longer exists in the
mirror) leaves every counter unchanged — the record is silently ignored. -/
theorem c9_stale_manifest_record_ignored (fs : PyFS) (outDir mf : List Char)
    (computed parsed : List (List Char × CsRec)) (k : List Char) (v : CsRec)
    (h : k ∉ dictKeys computed) :
    validate_compare fs outDir mf computed (insertOrUpdate parsed k v) =
      validate_compare fs outDir mf computed parsed := by
  unfold validate_compare
  have key : ∀ (l : List (List Char × CsRec)), k ∉ dictKeys l →
      ∀ (init : Nat × Nat × Nat),
      l.foldl (validate_compare_step fs outDir mf (insertOrUpdate parsed k v)) init =
        l.foldl (validate_compare_step fs outDir mf parsed) init := by
    intro l
    induction l with
    | nil => intro _ _; rfl
    | cons hd t ih =>
      intro hne init
      have hhd : ¬ hd.1 = k := fun he => hne (he ▸ List.mem_cons_self hd.1 (dictKeys t))
      have hnt : k ∉ dictKeys t := fun hm => hne (List.mem_cons_of_mem hd.1 hm)
      rw [List.foldl_cons, List.foldl_cons,
        validate_compare_step_insert_ne fs outDir mf parsed k v init hd hhd, ih hnt]
  exact key computed h (0, 0, 0)

/-- Witness for `c9_stale_manifest_record_ignored` at a concrete scenario. -/
theorem c9_stale_manifest_record_ignored_witness :
    strChars "gone" ∉ dictKeys [(strChars "f", CsRec.mk (strChars "/bk") (strChars "aa"))] ∧
    validate_compare ⟨[]⟩ (strChars "/bk") (strChars "/bk/checksums.md5")
        [(strChars "f", CsRec.mk (strChars "/bk") (strChars "aa"))]
        (insertOrUpdate [] (strChars "gone") (CsRec.mk (strChars "/bk") (strChars "bb"))) =
      validate_compare ⟨[]⟩ (strChars "/bk") (strChars "/bk/checksums.md5")
        [(strChars "f", CsRec.mk (strChars "/bk") (strChars "aa"))] [] :=
  ⟨by decide, c9_stale_manifest_record_ignored ⟨[]⟩ (strChars "/bk")
    (strChars "/bk/checksums.md5") [(strChars "f", CsRec.mk (strChars "/bk") (strChars "aa"))]
    [] (strChars "gone") (CsRec.mk (strChars "/bk") (strChars "bb")) (by decide)⟩

/-! ## Claim C1: stage-3 merge of parsed and computed digests -/

theorem parseChecksumsFold_nodup (alg : Alg) (root : List Char) :
    ∀ (lines : List (List Char)) (acc : List (List Char × CsRec)),
      (dictKeys acc).Nodup → (dictKeys (parseChecksumsFold alg root acc lines)).Nodup := by
  intro lines
  induction lines with
  | nil => intro acc h; exact h
  | cons line t ih =>
    intro acc h
    show (dictKeys (parseChecksumsFold alg root
      (match parseChecksumLine alg root line with
        | none => acc
        | some (k, v) => insertOrUpdate acc k v) t)).Nodup
    cases parseChecksumLine alg root line with
    | none => exact ih acc h
    | some kv => exact ih _ (dictKeys_insertOrUpdate_nodup h)

theorem parse_checksums_nodup (alg : Alg) (root : List Char)
    (content : Option (List Char)) :
    (dictKeys (parse_checksums_from_file alg root content)).Nodup := by
  cases content with
  | none => exact List.nodup_nil
  | some cs => exact parseChecksumsFold_nodup alg root (pyLines cs) [] List.nodup_nil

theorem calculate_checksum_run_keys_disjoint (hashFn : List Char → List Char)
    (outFile : Option (List Char)) (outAbs : Bool) (excl : List (List Char × CsRec))
    (files : List (List Char × List Char)) (fs : PyFS) :
    ∀ kk ∈ dictKeys (calculate_checksum_run hashFn outFile outAbs (some excl) files fs).1,
      kk ∉ dictKeys excl := by
  unfold calculate_checksum_run
  have key : ∀ (l : List (List Char × List Char)) (st : List (List Char × CsRec) × PyFS),
      (∀ kk ∈ dictKeys st.1, kk ∉ dictKeys excl) →
      ∀ kk ∈ dictKeys ((l.foldl (fun st item =>
        match some excl with
        | some excl2 =>
          if item.1 ∈ dictKeys excl2 then st
          else calculate_checksums_step hashFn outFile outAbs st.1 st.2 item.1 item.2
        | none => calculate_checksums_step hashFn outFile outAbs st.1 st.2 item.1 item.2)
        st).1), kk ∉ dictKeys excl := by
    intro l
    induction l with
    | nil => intro st h; exact h
    | cons hd t ih =>
      intro st h
      rw [List.foldl_cons]
      by_cases hm : hd.1 ∈ dictKeys excl
      · refine ih _ ?_
        simpa [hm] using h
      · refine ih _ ?_
        simp only [hm, if_false]
        simp only [calculate_checksums_step]
        cases fsLookup st.2 (joinPath hd.2 hd.1) with
        | none => exact h
        | some content =>
          intro kk hkk
          rcases mem_dictKeys_insertOrUpdate.1 hkk with h2 | h2
          · exact h kk h2
          · exact h2 ▸ hm
  exact key files ([], fs) (by intro kk h; cases h)

theorem pyDictUpdate_disjoint_lookup (parsed computed : List (List Char × CsRec))
    (hnodup : (dictKeys parsed).Nodup)
    (hdisj : ∀ x ∈ dictKeys computed, x ∉ dictKeys parsed) (kk : List Char) :
    alookup (pyDictUpdate computed parsed) kk =
      (alookup computed kk <|> alookup parsed kk) := by
  rw [alookup_pyDictUpdate parsed computed hnodup kk]
  cases hpk : alookup parsed kk with
  | none => cases hck : alookup computed kk <;> rfl
  | some w =>
    have hck : alookup computed kk = none := by
      cases hck : alookup computed kk with
      | none => rfl
      | some u =>
        exact absurd (mem_dictKeys_of_alookup hpk)
          (hdisj kk (mem_dictKeys_of_alookup hck))
    rw [hck]
    rfl

/-- C1: in backup stage 3 with `recalculate_checksum = false`, the merged
digest dict is the union of the computed and parsed records — every lookup is
served by the computed record when one exists, else by the parsed record —
the two key sets are disjoint (the parsed records form the exclude set of the
digest pool), and consequently for every relative path present in both the
merged dict holds the freshly computed digest (vacuously so, as no path is
present in both). -/
theorem c1_stage3_merge (hashFn : List Char → List Char) (alg : Alg) (outDir : List Char)
    (outputFilesTree : List (List Char × List Char)) (fs : PyFS) (kk : List Char) :
    alookup (backup_stage3 hashFn alg outDir false outputFilesTree fs).2.2 kk =
      (alookup (backup_stage3 hashFn alg outDir false outputFilesTree fs).2.1 kk <|>
        alookup (backup_stage3 hashFn alg outDir false outputFilesTree fs).1 kk) ∧
    (kk ∈ dictKeys (backup_stage3 hashFn alg outDir false outputFilesTree fs).2.1 →
      kk ∉ dictKeys (backup_stage3 hashFn alg outDir false outputFilesTree fs).1) ∧
    (kk ∈ dictKeys (backup_stage3 hashFn alg outDir false outputFilesTree fs).2.1 →
      kk ∈ dictKeys (backup_stage3 hashFn alg outDir false outputFilesTree fs).1 →
      alookup (backup_stage3 hashFn alg outDir false outputFilesTree fs).2.2 kk =
        alookup (backup_stage3 hashFn alg outDir false outputFilesTree fs).2.1 kk) := by
  have hdisj : ∀ x ∈ dictKeys (backup_stage3 hashFn alg outDir false outputFilesTree fs).2.1,
      x ∉ dictKeys (backup_stage3 hashFn alg outDir false outputFilesTree fs).1 :=
    fun x hx => calculate_checksum_run_keys_disjoint hashFn none false
      (parse_checksums_from_file alg outDir
        (fsLookup fs (joinPath outDir (manifestFileName alg)))) outputFilesTree fs x hx
  refine ⟨?_, fun hx => hdisj kk hx, fun hx hp => absurd hp (hdisj kk hx)⟩
  exact pyDictUpdate_disjoint_lookup _ _
    (parse_checksums_nodup alg outDir (fsLookup fs (joinPath outDir (manifestFileName alg))))
    hdisj kk

/-- Witness for `c1_stage3_merge` at a concrete stage-3 scenario: a mirror
holding a manifest with one stale record and one fresh file. -/
theorem c1_stage3_merge_witness :
    alookup (backup_stage3 (fun _ => strChars "bbbbbbbbbbbbbbbbbbbbbbbbbbbbbbbb") Alg.md5
        (strChars "/bk") false [(strChars "new.txt", strChars "/bk")]
        ⟨[(strChars "/bk/checksums.md5",
            strChars "aaaaaaaaaaaaaaaaaaaaaaaaaaaaaaaa *old.txt"),
          (strChars "/bk/new.txt", strChars "fresh")]⟩).2.2 (strChars "new.txt") =
      (alookup (backup_stage3 (fun _ => strChars "bbbbbbbbbbbbbbbbbbbbbbbbbbbbbbbb") Alg.md5
        (strChars "/bk") false [(strChars "new.txt", strChars "/bk")]
        ⟨[(strChars "/bk/checksums.md5",
            strChars "aaaaaaaaaaaaaaaaaaaaaaaaaaaaaaaa *old.txt"),
          (strChars "/bk/new.txt", strChars "fresh")]⟩).2.1 (strChars "new.txt") <|>
        alookup (backup_stage3 (fun _ => strChars "bbbbbbbbbbbbbbbbbbbbbbbbbbbbbbbb") Alg.md5
        (strChars "/bk") false [(strChars "new.txt", strChars "/bk")]
        ⟨[(strChars "/bk/checksums.md5",
            strChars "aaaaaaaaaaaaaaaaaaaaaaaaaaaaaaaa *old.txt"),
          (strChars "/bk/new.txt", strChars "fresh")]⟩).1 (strChars "new.txt")) :=
  (c1_stage3_merge (fun _ => strChars "bbbbbbbbbbbbbbbbbbbbbbbbbbbbbbbb") Alg.md5
    (strChars "/bk") [(strChars "new.txt", strChars "/bk")]
    ⟨[(strChars "/bk/checksums.md5",
        strChars "aaaaaaaaaaaaaaaaaaaaaaaaaaaaaaaa *old.txt"),
      (strChars "/bk/new.txt", strChars "fresh")]⟩ (strChars "new.txt")).1

/-! ## Claim C3: digest validation performed by the manifest parser -/

theorem isHexDigitPy_not_ws {c : Char} (h : isHexDigitPy c = true) : isPyWs c = false := by
  have hm : c ∈ hexdigits := by simpa [isHexDigitPy] using h
  have hall : ∀ x ∈ hexdigits, isPyWs x = false := by decide
  exact hall c hm

theorem isHexDigitPy_ne_star {c : Char} (h : isHexDigitPy c = true) : ¬ c = '*' := by
  have hm : c ∈ hexdigits := by simpa [isHexDigitPy] using h
  have hall : ∀ x ∈ hexdigits, ¬ x = '*' := by decide
  exact hall c hm

theorem dropWhile_append_singleton (p : Char → Bool) (a : Char) (h : p a = false) :
    ∀ (l : List Char), (l ++ [a]).dropWhile p = l.dropWhile p ++ [a]
  | [] => by simp [List.dropWhile_cons, h]
  | c :: t => by
    by_cases hc : p c = true
    · simp [List.dropWhile_cons, hc, dropWhile_append_singleton p a h t]
    · simp [List.dropWhile_cons, hc]

theorem pyStrip_cons_of_not_ws {c0 : Char} (l : List Char) (h : isPyWs c0 = false) :
    ∃ t2, pyStrip (c0 :: l) = c0 :: t2 := by
  unfold pyStrip
  rw [List.dropWhile_cons, h]
  simp only [Bool.false_eq_true, if_false, List.reverse_cons]
  rw [dropWhile_append_singleton isPyWs c0 h]
  exact ⟨(l.reverse.dropWhile isPyWs).reverse, by simp⟩

theorem splitOnCharAux_head_append (sep : Char) :
    ∀ (l cur : List Char), ∃ u rest, splitOnCharAux sep cur l = (cur.reverse ++ u) :: rest := by
  intro l
  induction l with
  | nil => intro cur; exact ⟨[], [], by simp [splitOnCharAux]⟩
  | cons c t ih =>
    intro cur
    by_cases hc : c = sep
    · exact ⟨[], splitOnCharAux sep [] t, by simp [splitOnCharAux, hc]⟩
    · obtain ⟨u, rest, hu⟩ := ih (c :: cur)
      exact ⟨c :: u, rest, by simp [splitOnCharAux, hc, hu]⟩

theorem splitOnChar_cons_of_ne (sep c0 : Char) (r : List Char) (h : ¬ c0 = sep) :
    ∃ u rest, splitOnChar sep (c0 :: r) = (c0 :: u) :: rest := by
  obtain ⟨u, rest, hu⟩ := splitOnCharAux_head_append sep r [c0]
  exact ⟨u, rest, by simp [splitOnChar, splitOnCharAux, h, hu]⟩

theorem parseChecksumLine_checksum_props (alg : Alg) (root : List Char)
    (line0 k : List Char) (v : CsRec)
    (h : parseChecksumLine alg root line0 = some (k, v)) :
    v.checksum.length = alg.requiredLen ∧ v.checksum ≠ [] ∧
      isHexDigitPy v.checksum.headI = true ∧ v.root = root := by
  simp only [parseChecksumLine] at h
  split at h
  · exact absurd h (by simp)
  · rename_i c0 rest hL
    rw [hL] at h
    by_cases hhex : isHexDigitPy c0 = true
    · rw [if_neg (by simpa using hhex)] at h
      split at h
      · exact absurd h (by simp)
      · split at h
        · exact absurd h (by simp)
        · split at h
          · exact absurd h (by simp)
          · rename_i hsplit hlen hpath
            obtain ⟨u, rest2, hu⟩ :=
              splitOnChar_cons_of_ne '*' c0 rest (isHexDigitPy_ne_star hhex)
            obtain ⟨t2, ht2⟩ := pyStrip_cons_of_not_ws u (isHexDigitPy_not_ws hhex)
            have hv : v = ⟨root, pyStrip (splitOnChar '*' (c0 :: rest)).headI⟩ := by
              have := h
              injection this with h2
              injection h2 with h3 h4
              exact h4.symm
            have hcs : v.checksum = c0 :: t2 := by
              rw [hv]
              show pyStrip (splitOnChar '*' (c0 :: rest)).headI = c0 :: t2
              rw [hu]
              exact ht2
            refine ⟨?_, ?_, ?_, ?_⟩
            · rw [hv]
              show (pyStrip (splitOnChar '*' (c0 :: rest)).headI).length = alg.requiredLen
              exact Decidable.of_not_not hlen
            · rw [hcs]; exact List.cons_ne_nil c0 t2
            · rw [hcs]; exact hhex
            · rw [hv]
    · rw [if_pos (by simpa using hhex)] at h
      exact absurd h (by simp)

theorem parseChecksumsFold_mem (alg : Alg) (root : List Char)
    (P : List Char × CsRec → Prop)
    (hline : ∀ line k v, parseChecksumLine alg root line = some (k, v) → P (k, v)) :
    ∀ (lines : List (List Char)) (acc : List (List Char × CsRec)),
      (∀ pd ∈ acc, P pd) → ∀ pd ∈ parseChecksumsFold alg root acc lines, P pd := by
  intro lines
  induction lines with
  | nil => intro acc hacc pd hpd; exact hacc pd hpd
  | cons line t ih =>
    intro acc hacc pd hpd
    have hstep : parseChecksumsFold alg root acc (line :: t) =
        parseChecksumsFold alg root (match parseChecksumLine alg root line with
          | none => acc
          | some (k, v) => insertOrUpdate acc k v) t := rfl
    rw [hstep] at hpd
    cases hl : parseChecksumLine alg root line with
    | none =>
      rw [hl] at hpd
      exact ih acc hacc pd hpd
    | some kv =>
      obtain ⟨k1, v1⟩ := kv
      rw [hl] at hpd
      refine ih (insertOrUpdate acc k1 v1) ?_ pd hpd
      intro pd2 hpd2
      rcases mem_of_mem_insertOrUpdate hpd2 with h2 | h2
      · exact hacc pd2 h2
      · exact h2 ▸ hline line k1 v1 hl

/-- C3 counterexample: a manifest line whose 32-character digest prefix starts
with a hex digit but continues with `z` characters is accepted and contributes
a record whose stored digest is not hexadecimal — the per-character hex check
of `parse_checksums_from_file` is a no-op (its `continue` re-enters the inner
loop), so such lines are not rejected. -/
theorem c3_counterexample :
    (strChars "f.txt",
      CsRec.mk (strChars "/bk") (strChars "azzzzzzzzzzzzzzzzzzzzzzzzzzzzzzz"))
      ∈ parse_checksums_from_file Alg.md5 (strChars "/bk")
        (some (strChars "azzzzzzzzzzzzzzzzzzzzzzzzzzzzzzz *f.txt")) ∧
    'z' ∈ strChars "azzzzzzzzzzzzzzzzzzzzzzzzzzzzzzz" ∧
    isLowerHex 'z' = false ∧ isHexDigitPy 'z' = false := by
  decide

/-- C3 amended: every record emitted by manifest parsing has a digest of
exactly the hex length required by the algorithm whose first character is a
hexadecimal digit (either case), and carries the given root; no guarantee
holds for the remaining digest characters, since the per-character hex check
in the source is ineffective. -/
theorem c3_amended (alg : Alg) (root : List Char) (content : Option (List Char)) :
    ∀ pd ∈ parse_checksums_from_file alg root content,
      pd.2.checksum.length = alg.requiredLen ∧ pd.2.checksum ≠ [] ∧
        isHexDigitPy pd.2.checksum.headI = true := by
  cases content with
  | none => intro pd hpd; cases hpd
  | some cs =>
    intro pd hpd
    have hmain := parseChecksumsFold_mem alg root
      (fun pd2 => pd2.2.checksum.length = alg.requiredLen ∧ pd2.2.checksum ≠ [] ∧
        isHexDigitPy pd2.2.checksum.headI = true)
      (fun line k2 v2 hl => by
        obtain ⟨h1, h2, h3, _⟩ := parseChecksumLine_checksum_props alg root line k2 v2 hl
        exact ⟨h1, h2, h3⟩)
      (pyLines cs) [] (fun pd2 hpd2 => absurd hpd2 (List.not_mem_nil pd2))
    exact hmain pd hpd

/-- Witness for `c3_amended` at a concrete accepted manifest line. -/
theorem c3_amended_witness :
    (strChars "f.txt",
      CsRec.mk (strChars "/bk") (strChars "aaaaaaaaaaaaaaaaaaaaaaaaaaaaaaaa"))
      ∈ parse_checksums_from_file Alg.md5 (strChars "/bk")
        (some (strChars "aaaaaaaaaaaaaaaaaaaaaaaaaaaaaaaa *f.txt")) ∧
    ((strChars "f.txt",
      CsRec.mk (strChars "/bk")
        (strChars "aaaaaaaaaaaaaaaaaaaaaaaaaaaaaaaa")).2.checksum.length
          = Alg.md5.requiredLen ∧
      (strChars "f.txt",
        CsRec.mk (strChars "/bk")
          (strChars "aaaaaaaaaaaaaaaaaaaaaaaaaaaaaaaa")).2.checksum ≠ [] ∧
      isHexDigitPy (strChars "f.txt",
        CsRec.mk (strChars "/bk")
          (strChars "aaaaaaaaaaaaaaaaaaaaaaaaaaaaaaaa")).2.checksum.headI = true) :=
  ⟨by decide, c3_amended Alg.md5 (strChars "/bk")
    (some (strChars "aaaaaaaaaaaaaaaaaaaaaaaaaaaaaaaa *f.txt")) _ (by decide)⟩

/-! ## Claim C5: the greedy path-suffix matcher -/

theorem iprtLoop_suffix (child : List (List Char)) :
    ∀ (rest done : List (List Char)) (childIdx : Nat) (lastMatch : Int),
      childIdx < child.length →
      childIdx ≤ done.length →
      done.drop (done.length - childIdx) = child.take childIdx →
      ((childIdx = 0 ∧ lastMatch = -1) ∨
        (1 ≤ childIdx ∧ lastMatch = (done.length : Int) - 1)) →
      iprtLoop child rest done.length childIdx lastMatch =
        some (((done.length + rest.length : Nat) : Int) - 1) →
      done ++ rest ≠ [] →
      suffixContinuationSpec (done ++ rest) child := by
  intro rest
  induction rest with
  | nil =>
    intro done childIdx lastMatch hlt hle hmatch hlast hres hne
    have hres2 : lastMatch = (done.length : Int) - 1 := by
      simpa [iprtLoop] using hres
    rcases hlast with ⟨_, hlm⟩ | ⟨hc1, _⟩
    · rw [hlm] at hres2
      have hz : done.length = 0 := by omega
      have hdone : done = [] := List.length_eq_zero.1 hz
      exact absurd (by simp [hdone]) hne
    · exact ⟨childIdx, hc1, by simpa using hle, le_of_lt hlt, by simpa using hmatch⟩
  | cons p rest ih =>
    intro done childIdx lastMatch hlt hle hmatch hlast hres hne
    have hget : child.get? childIdx = some (child.get ⟨childIdx, hlt⟩) :=
      List.get?_eq_get hlt
    have hdropstep : (done ++ [p]).drop (done.length + 1 - (childIdx + 1)) =
        child.take childIdx ++ [p] := by
      have h1 : done.length + 1 - (childIdx + 1) = done.length - childIdx := by omega
      rw [h1, List.drop_append_of_le_length (by omega), hmatch]
    simp only [iprtLoop] at hres
    rw [hget] at hres
    dsimp only at hres
    by_cases hpc : p = child.get ⟨childIdx, hlt⟩
    · rw [if_pos hpc] at hres
      have htake : child.take (childIdx + 1) = child.take childIdx ++ [p] := by
        rw [List.take_succ]
        have hg2 : child[childIdx]? = some p := by
          rw [← List.get?_eq_getElem?, hget, hpc]
        rw [hg2]
        rfl
      by_cases hbreak : childIdx + 1 ≥ child.length
      · rw [if_pos hbreak] at hres
        have hlen0 : rest.length = 0 := by
          have := Option.some.inj hres
          have hlen : (p :: rest).length = rest.length + 1 := by simp
          rw [hlen] at this
          omega
        have hrest : rest = [] := List.length_eq_zero.1 hlen0
        subst hrest
        refine ⟨childIdx + 1, by omega, ?_, by omega, ?_⟩
        · simp
          omega
        · have hplen : (done ++ [p]).length = done.length + 1 := by simp
          rw [hplen, htake]
          exact hdropstep
      · rw [if_neg hbreak] at hres
        have hres2 : iprtLoop child rest (done ++ [p]).length (childIdx + 1)
            ((((done ++ [p]).length : Nat) : Int) - 1) =
            some ((((done ++ [p]).length + rest.length : Nat) : Int) - 1) := by
          have hplen : (done ++ [p]).length = done.length + 1 := by simp
          rw [hplen]
          have hcast : ((done.length + 1 : Nat) : Int) - 1 = (done.length : Int) := by
            push_cast
            ring
          rw [hcast]
          have hcast2 : ((done.length + 1 + rest.length : Nat) : Int) - 1 =
              ((done.length + (p :: rest).length : Nat) : Int) - 1 := by
            push_cast
            simp
            ring
          rw [hcast2]
          exact hres
        have hsuf := ih (done ++ [p]) (childIdx + 1)
          ((((done ++ [p]).length : Nat) : Int) - 1)
          (by omega) (by simp; omega) (by
            have hplen : (done ++ [p]).length = done.length + 1 := by simp
            rw [hplen, htake]
            exact hdropstep)
          (Or.inr ⟨by omega, rfl⟩) hres2 (by simp)
        have hassoc : done ++ [p] ++ rest = done ++ p :: rest := by simp
        rwa [hassoc] at hsuf
    · rw [if_neg hpc] at hres
      have hres2 : iprtLoop child rest (done ++ [p]).length 0 (-1) =
          some ((((done ++ [p]).length + rest.length : Nat) : Int) - 1) := by
        have hplen : (done ++ [p]).length = done.length + 1 := by simp
        rw [hplen]
        have hcast2 : ((done.length + 1 + rest.length : Nat) : Int) - 1 =
            ((done.length + (p :: rest).length : Nat) : Int) - 1 := by
          push_cast
          simp
          ring
        rw [hcast2]
        exact hres
      have hsuf := ih (done ++ [p]) 0 (-1) (by omega) (by omega)
        (by rw [Nat.sub_zero, List.drop_length, List.take_zero])
        (Or.inl ⟨rfl, rfl⟩) hres2 (by simp)
      have hassoc : done ++ [p] ++ rest = done ++ p :: rest := by simp
      rwa [hassoc] at hsuf

/-- C5 counterexample: for `parent = [a, a]` and `child = [a, b]` the suffix
`[a]` of the parent — which contains its terminal segment — equals the prefix
`[a]` of the child, yet `is_path_relative_to` returns `False`: its greedy walk
consumes the first `a` of the parent, resets on the mismatch with `b`, and
never retries the second `a` against the start of the child. -/
theorem c5_counterexample :
    suffixContinuationSpec [strChars "a", strChars "a"] [strChars "a", strChars "b"] ∧
    is_path_relative_to [strChars "a", strChars "a"] [strChars "a", strChars "b"]
      = some false :=
  ⟨⟨1, by decide, by decide, by decide, by decide⟩, by decide⟩

/-- C5 amended: for nonempty segment lists, `is_path_relative_to` returning
`True` implies that some suffix of the parent containing its terminal segment
equals a prefix of the child; the converse direction of the claimed
equivalence fails (see the counterexample). -/
theorem c5_amended (parent child : List (List Char)) (hne : parent ≠ [])
    (h : is_path_relative_to parent child = some true) :
    suffixContinuationSpec parent child := by
  cases child with
  | nil =>
    cases parent with
    | nil => exact absurd rfl hne
    | cons p rest => simp [is_path_relative_to, iprtLoop] at h
  | cons c0 ct =>
    have hlt : 0 < (c0 :: ct).length := by simp
    unfold is_path_relative_to at h
    cases hloop : iprtLoop (c0 :: ct) parent 0 0 (-1) with
    | none => rw [hloop] at h; exact absurd h (by simp)
    | some lm =>
      rw [hloop] at h
      have hlm : lm = (parent.length : Int) - 1 := by simpa using h
      have hsuf := iprtLoop_suffix (c0 :: ct) parent [] 0 (-1) hlt (by simp)
        (by simp) (Or.inl ⟨rfl, rfl⟩)
        (by
          show iprtLoop (c0 :: ct) parent 0 0 (-1) =
            some (((0 + parent.length : Nat) : Int) - 1)
          rw [hloop, hlm]
          norm_num)
        (by simpa using hne)
      simpa using hsuf

/-- Witness for `c5_amended` at a concrete matching pair. -/
theorem c5_amended_witness :
    ([strChars "a", strChars "b"] ≠ ([] : List (List Char)) ∧
      is_path_relative_to [strChars "a", strChars "b"] [strChars "b", strChars "c"]
        = some true) ∧
    suffixContinuationSpec [strChars "a", strChars "b"] [strChars "b", strChars "c"] :=
  ⟨⟨by decide, by decide⟩,
    c5_amended [strChars "a", strChars "b"] [strChars "b", strChars "c"]
      (by decide) (by decide)⟩

/-! ## Claim C4: manifest round trip -/

theorem isLowerHex_props {c : Char} (h : isLowerHex c = true) :
    isHexDigitPy c = true ∧ isPyWs c = false ∧ ¬ c = '\n' ∧ ¬ c = '\r' ∧ ¬ c = '*' := by
  have hm : c ∈ strChars "0123456789abcdef" := by simpa [isLowerHex] using h
  have hall : ∀ x ∈ strChars "0123456789abcdef", isHexDigitPy x = true ∧
      isPyWs x = false ∧ ¬ x = '\n' ∧ ¬ x = '\r' ∧ ¬ x = '*' := by decide
  exact hall c hm

theorem filter_ne_eq_self (a : Char) (l : List Char) (h : a ∉ l) :
    l.filter (fun c => ¬ c = a) = l := by
  rw [List.filter_eq_self]
  intro b hb
  have hba : ¬ b = a := fun he => h (he ▸ hb)
  simp [hba]

theorem pyStrip_eq_self :
    ∀ (l : List Char), (∀ c, l.head? = some c → isPyWs c = false) →
      (∀ c, l.getLast? = some c → isPyWs c = false) → pyStrip l = l
  | [], _, _ => rfl
  | a :: t, hh, hl => by
    have ha : isPyWs a = false := hh a rfl
    unfold pyStrip
    rw [List.dropWhile_cons, ha]
    simp only [Bool.false_eq_true, if_false]
    have hrev : (a :: t).reverse ≠ [] := by simp
    obtain ⟨b, r, hbr⟩ := List.exists_cons_of_ne_nil hrev
    have hb : isPyWs b = false := by
      refine hl b ?_
      rw [← List.head?_reverse, hbr]
      rfl
    rw [hbr, List.dropWhile_cons, hb]
    simp only [Bool.false_eq_true, if_false]
    rw [← hbr, List.reverse_reverse]

theorem pyStrip_append_space (d : List Char) (hne : d ≠ [])
    (hws : ∀ c ∈ d, isPyWs c = false) : pyStrip (d ++ [' ']) = d := by
  obtain ⟨a, t, hat⟩ := List.exists_cons_of_ne_nil hne
  have ha : isPyWs a = false := hws a (hat ▸ List.mem_cons_self a t)
  unfold pyStrip
  rw [hat, List.cons_append, List.dropWhile_cons, ha]
  simp only [Bool.false_eq_true, if_false]
  rw [show (a :: (t ++ [' '])).reverse = ' ' :: (a :: t).reverse by simp]
  rw [List.dropWhile_cons]
  simp only [show isPyWs ' ' = true from rfl, if_true]
  have hrev : (a :: t).reverse ≠ [] := by simp
  obtain ⟨b, r, hbr⟩ := List.exists_cons_of_ne_nil hrev
  have hb : isPyWs b = false := by
    refine hws b ?_
    have : b ∈ (a :: t).reverse := by rw [hbr]; exact List.mem_cons_self b r
    rw [hat]
    exact List.mem_reverse.1 this
  rw [hbr, List.dropWhile_cons, hb]
  simp only [Bool.false_eq_true, if_false]
  rw [← hbr, List.reverse_reverse]

theorem splitOnCharAux_ne_nil (sep : Char) :
    ∀ (l cur : List Char), splitOnCharAux sep cur l ≠ []
  | [], cur => by simp [splitOnCharAux]
  | c :: t, cur => by
    by_cases hc : c = sep
    · simp [splitOnCharAux, hc]
    · simpa [splitOnCharAux, hc] using splitOnCharAux_ne_nil sep t (c :: cur)

theorem splitOnCharAux_append_sep (sep : Char) :
    ∀ (l cur rest : List Char), sep ∉ l →
      splitOnCharAux sep cur (l ++ sep :: rest) =
        (cur.reverse ++ l) :: splitOnCharAux sep [] rest
  | [], cur, rest, _ => by simp [splitOnCharAux]
  | c :: t, cur, rest, h => by
    have hc : ¬ c = sep := fun he => h (List.mem_cons.2 (Or.inl he.symm))
    have ht : sep ∉ t := fun hm => h (List.mem_cons_of_mem c hm)
    simp only [List.cons_append, splitOnCharAux, if_neg hc, List.append_eq]
    rw [splitOnCharAux_append_sep sep t (c :: cur) rest ht]
    simp

theorem pyJoin_cons_of_ne_nil (sep : Char) (x : List Char) (xs : List (List Char))
    (h : xs ≠ []) : pyJoin sep (x :: xs) = x ++ sep :: pyJoin sep xs := by
  cases xs with
  | nil => exact absurd rfl h
  | cons y ys => rfl

theorem pyJoin_splitOnCharAux (sep : Char) :
    ∀ (l cur : List Char), pyJoin sep (splitOnCharAux sep cur l) = cur.reverse ++ l
  | [], cur => by simp [splitOnCharAux, pyJoin]
  | c :: t, cur => by
    by_cases hc : c = sep
    · subst hc
      rw [show splitOnCharAux c cur (c :: t) = cur.reverse :: splitOnCharAux c [] t from
        by simp [splitOnCharAux]]
      rw [pyJoin_cons_of_ne_nil c cur.reverse (splitOnCharAux c [] t)
        (splitOnCharAux_ne_nil c t [])]
      rw [pyJoin_splitOnCharAux c t []]
      simp
    · rw [show splitOnCharAux sep cur (c :: t) = splitOnCharAux sep (c :: cur) t from
        by simp [splitOnCharAux, hc]]
      rw [pyJoin_splitOnCharAux sep t (c :: cur)]
      simp

theorem pyJoin_splitOnChar (sep : Char) (l : List Char) :
    pyJoin sep (splitOnChar sep l) = l := by
  simpa using pyJoin_splitOnCharAux sep l []

theorem translateNewlines_of_no_cr :
    ∀ (l : List Char), '\r' ∉ l → translateNewlines l = l
  | [], _ => rfl
  | [c], h => by
    have hc : ¬ c = '\r' := fun he => h (List.mem_cons.2 (Or.inl he.symm))
    simp [translateNewlines, hc]
  | c1 :: c2 :: t, h => by
    have hc1 : ¬ c1 = '\r' := fun he => h (List.mem_cons.2 (Or.inl he.symm))
    have ht : '\r' ∉ c2 :: t := fun hm => h (List.mem_cons_of_mem c1 hm)
    simp only [translateNewlines, if_neg hc1]
    rw [translateNewlines_of_no_cr (c2 :: t) ht]

theorem splitNlAux_append_newline :
    ∀ (l cur rest : List Char), '\n' ∉ l →
      splitNlAux cur (l ++ '\n' :: rest) = (cur.reverse ++ l) :: splitNlAux [] rest
  | [], cur, rest, _ => by simp [splitNlAux]
  | c :: t, cur, rest, h => by
    have hc : ¬ c = '\n' := fun he => h (List.mem_cons.2 (Or.inl he.symm))
    have ht : '\n' ∉ t := fun hm => h (List.mem_cons_of_mem c hm)
    simp only [List.cons_append, splitNlAux, if_neg hc, List.append_eq]
    rw [splitNlAux_append_newline t (c :: cur) rest ht]
    simp

theorem writeChecksums_no_cr :
    ∀ (records : List (List Char × CsRec)),
      (∀ pd ∈ records, (∀ c ∈ pd.2.checksum, isLowerHex c = true) ∧ '\r' ∉ pd.1) →
      '\r' ∉ writeChecksums records
  | [], _ => List.not_mem_nil '\r'
  | (p, v) :: rest, h => by
    intro hmem
    have hpv := h (p, v) (List.mem_cons_self (p, v) rest)
    have h1 : '\r' ∉ v.checksum :=
      fun hc => absurd rfl (isLowerHex_props (hpv.1 '\r' hc)).2.2.2.1
    have h2 : '\r' ∉ p := hpv.2
    have h3 : '\r' ∉ writeChecksums rest :=
      writeChecksums_no_cr rest (fun pd hpd => h pd (List.mem_cons_of_mem _ hpd))
    have h4 : ¬ ('\r' = ' ') := by decide
    have h5 : ¬ ('\r' = '*') := by decide
    have h6 : ¬ ('\r' = '\n') := by decide
    simp only [writeChecksums, List.mem_append, List.mem_cons] at hmem
    tauto

theorem parseChecksumLine_nil (alg : Alg) (root : List Char) :
    parseChecksumLine alg root [] = none := rfl

theorem parseChecksumLine_write (alg : Alg) (root p : List Char) (v : CsRec)
    (hlen : v.checksum.length = alg.requiredLen)
    (hhex : ∀ c ∈ v.checksum, isLowerHex c = true)
    (hpne : p ≠ []) (hpnl : '\n' ∉ p) (hpcr : '\r' ∉ p)
    (hplast : ∀ c, p.getLast? = some c → isPyWs c = false)
    (hpnorm : normpath p = p) (hroot : v.root = root) :
    parseChecksumLine alg root (v.checksum ++ ' ' :: '*' :: p) = some (p, v) := by
  have hdne : v.checksum ≠ [] := by
    intro he
    rw [he] at hlen
    cases alg <;> simp [Alg.requiredLen] at hlen
  obtain ⟨c0, t, hd⟩ := List.exists_cons_of_ne_nil hdne
  have hc0 : isLowerHex c0 = true := hhex c0 (by rw [hd]; exact List.mem_cons_self c0 t)
  have hc0p := isLowerHex_props hc0
  have hlnl : '\n' ∉ v.checksum ++ ' ' :: '*' :: p := by
    intro hm
    rcases List.mem_append.1 hm with hm1 | hm1
    · exact absurd rfl (isLowerHex_props (hhex '\n' hm1)).2.2.1
    · rcases List.mem_cons.1 hm1 with he | hm2
      · exact absurd he (by decide)
      · rcases List.mem_cons.1 hm2 with he | hm3
        · exact absurd he (by decide)
        · exact hpnl hm3
  have hlcr : '\r' ∉ v.checksum ++ ' ' :: '*' :: p := by
    intro hm
    rcases List.mem_append.1 hm with hm1 | hm1
    · exact absurd rfl (isLowerHex_props (hhex '\r' hm1)).2.2.2.1
    · rcases List.mem_cons.1 hm1 with he | hm2
      · exact absurd he (by decide)
      · rcases List.mem_cons.1 hm2 with he | hm3
        · exact absurd he (by decide)
        · exact hpcr hm3
  have hstar : '*' ∉ v.checksum ++ [' '] := by
    intro hm
    rcases List.mem_append.1 hm with hm1 | hm1
    · exact absurd rfl (isLowerHex_props (hhex '*' hm1)).2.2.2.2
    · exact absurd (List.mem_singleton.1 hm1) (by decide)
  have hstrip : pyStrip (v.checksum ++ ' ' :: '*' :: p) = v.checksum ++ ' ' :: '*' :: p := by
    refine pyStrip_eq_self _ ?_ ?_
    · intro c hc
      rw [hd, List.cons_append, List.head?_cons] at hc
      have hcc : c = c0 := (Option.some.inj hc).symm
      rw [hcc]
      exact hc0p.2.1
    · intro c hc
      rw [List.getLast?_append_of_ne_nil _ (show (' ' :: '*' :: p) ≠ [] by simp)] at hc
      rw [show (' ' :: '*' :: p) = [' ', '*'] ++ p from rfl,
        List.getLast?_append_of_ne_nil _ hpne] at hc
      exact hplast c hc
  have hsplit : splitOnChar '*' (v.checksum ++ ' ' :: '*' :: p) =
      (v.checksum ++ [' ']) :: splitOnChar '*' p := by
    rw [show v.checksum ++ ' ' :: '*' :: p = (v.checksum ++ [' ']) ++ '*' :: p by simp]
    show splitOnCharAux '*' [] ((v.checksum ++ [' ']) ++ '*' :: p) = _
    rw [splitOnCharAux_append_sep '*' (v.checksum ++ [' ']) [] p hstar]
    rfl
  have hstrip2 : pyStrip (v.checksum ++ [' ']) = v.checksum :=
    pyStrip_append_space v.checksum hdne (fun c hc => (isLowerHex_props (hhex c hc)).2.1)
  have hsp1 : 0 < (splitOnChar '*' p).length :=
    List.length_pos.2 (splitOnCharAux_ne_nil '*' p [])
  simp only [parseChecksumLine]
  rw [filter_ne_eq_self '\n' _ hlnl, filter_ne_eq_self '\r' _ hlcr, hstrip]
  rw [hd, List.cons_append]
  dsimp only
  rw [if_neg (not_not_intro hc0p.1)]
  rw [← List.cons_append, ← hd, hsplit]
  rw [if_neg (show ¬(((v.checksum ++ [' ']) :: splitOnChar '*' p).length ≤ 1) from by
    simp only [List.length_cons]
    omega)]
  dsimp only [List.headI, List.tail]
  rw [hstrip2, if_neg (not_not_intro hlen), pyJoin_splitOnChar '*' p,
    if_neg hpne, hpnorm]
  have hv : (⟨root, v.checksum⟩ : CsRec) = v := by
    cases v with
    | mk r c =>
      cases hroot
      rfl
  rw [hv]

theorem parseChecksumsFold_write (alg : Alg) (root : List Char) :
    ∀ (records acc : List (List Char × CsRec)),
      (∀ pd ∈ records, pd.2.checksum.length = alg.requiredLen ∧
        (∀ c ∈ pd.2.checksum, isLowerHex c = true) ∧ pd.1 ≠ [] ∧
        '\n' ∉ pd.1 ∧ '\r' ∉ pd.1 ∧
        (∀ c, pd.1.getLast? = some c → isPyWs c = false) ∧
        normpath pd.1 = pd.1 ∧ pd.2.root = root) →
      (dictKeys records).Nodup →
      (∀ pd ∈ records, pd.1 ∉ dictKeys acc) →
      parseChecksumsFold alg root acc (splitNlAux [] (writeChecksums records)) =
        acc ++ records
  | [], acc, _, _, _ => by
    show parseChecksumsFold alg root acc [[].reverse] = acc ++ []
    rw [List.append_nil]
    rfl
  | (p, v) :: rest, acc, h, hnodup, hacc => by
    have hpv := h (p, v) (List.mem_cons_self (p, v) rest)
    obtain ⟨hlen, hhex, hpne, hpnl, hpcr, hplast, hpnorm, hroot⟩ := hpv
    have hlinenl : '\n' ∉ v.checksum ++ ' ' :: '*' :: p := by
      intro hm
      rcases List.mem_append.1 hm with hm1 | hm1
      · exact absurd rfl (isLowerHex_props (hhex '\n' hm1)).2.2.1
      · rcases List.mem_cons.1 hm1 with he | hm2
        · exact absurd he (by decide)
        · rcases List.mem_cons.1 hm2 with he | hm3
          · exact absurd he (by decide)
          · exact hpnl hm3
    have hw : writeChecksums ((p, v) :: rest) =
        (v.checksum ++ ' ' :: '*' :: p) ++ '\n' :: writeChecksums rest := by
      rw [writeChecksums]
    have hlines : splitNlAux [] (writeChecksums ((p, v) :: rest)) =
        (v.checksum ++ ' ' :: '*' :: p) :: splitNlAux [] (writeChecksums rest) := by
      rw [hw, splitNlAux_append_newline (v.checksum ++ ' ' :: '*' :: p) []
        (writeChecksums rest) hlinenl]
      rfl
    rw [hlines]
    have hline := parseChecksumLine_write alg root p v hlen hhex hpne hpnl hpcr
      hplast hpnorm hroot
    have hstep : parseChecksumsFold alg root acc
        ((v.checksum ++ ' ' :: '*' :: p) :: splitNlAux [] (writeChecksums rest)) =
        parseChecksumsFold alg root (insertOrUpdate acc p v)
          (splitNlAux [] (writeChecksums rest)) := by
      show parseChecksumsFold alg root
        (match parseChecksumLine alg root (v.checksum ++ ' ' :: '*' :: p) with
          | none => acc
          | some (k, w) => insertOrUpdate acc k w)
        (splitNlAux [] (writeChecksums rest)) = _
      rw [hline]
    rw [hstep, insertOrUpdate_of_not_mem (hacc (p, v) (List.mem_cons_self (p, v) rest))]
    have hrest := parseChecksumsFold_write alg root rest (acc ++ [(p, v)])
      (fun pd hpd => h pd (List.mem_cons_of_mem _ hpd))
      (by
        have : (p :: dictKeys rest).Nodup := hnodup
        exact (List.nodup_cons.1 this).2)
      (by
        intro pd hpd
        have hkeys : dictKeys (acc ++ [(p, v)]) = dictKeys acc ++ [p] := by
          simp [dictKeys]
        rw [hkeys]
        intro hmem
        rcases List.mem_append.1 hmem with hm | hm
        · exact hacc pd (List.mem_cons_of_mem _ hpd) hm
        · have hpd1 : pd.1 = p := List.mem_singleton.1 hm
          have hpnotin : p ∉ dictKeys rest := by
            have : (p :: dictKeys rest).Nodup := hnodup
            exact (List.nodup_cons.1 this).1
          exact hpnotin (hpd1 ▸ List.mem_map_of_mem Prod.fst hpd))
    rw [hrest]
    simp

/-- C4 counterexample: the record set whose single path is `"a "` (trailing
space) is well-formed and contains no line terminator, yet the written line
`<digest> *a \n` is stripped on parse and the key comes back as `"a"`, so
`parse(write(R)) ≠ R`. -/
theorem c4_counterexample :
    WellFormedRecords Alg.md5 (strChars "/bk")
      [(strChars "a ", CsRec.mk (strChars "/bk")
        (strChars "aaaaaaaaaaaaaaaaaaaaaaaaaaaaaaaa"))] ∧
    NoLineTerminators
      [(strChars "a ", CsRec.mk (strChars "/bk")
        (strChars "aaaaaaaaaaaaaaaaaaaaaaaaaaaaaaaa"))] ∧
    parse_checksums_from_file Alg.md5 (strChars "/bk")
      (some (writeChecksums
        [(strChars "a ", CsRec.mk (strChars "/bk")
          (strChars "aaaaaaaaaaaaaaaaaaaaaaaaaaaaaaaa"))])) ≠
      [(strChars "a ", CsRec.mk (strChars "/bk")
        (strChars "aaaaaaaaaaaaaaaaaaaaaaaaaaaaaaaa"))] := by
  refine ⟨?_, ?_, ?_⟩ <;> decide

/-- C4 amended: `parse(write(R)) = R` holds for well-formed record sets whose
paths contain no line terminators AND are normalization-invariant and do not
end in strippable whitespace (the writer emits the path up to the line's end,
and the parser strips trailing whitespace and normalizes, so paths violating
these extra conditions do not survive the round trip). -/
theorem c4_amended (alg : Alg) (root : List Char)
    (records : List (List Char × CsRec))
    (hwf : WellFormedRecords alg root records)
    (hnl : NoLineTerminators records)
    (hextra : ∀ pd ∈ records, normpath pd.1 = pd.1 ∧
      (∀ c, pd.1.getLast? = some c → isPyWs c = false)) :
    parse_checksums_from_file alg root (some (writeChecksums records)) = records := by
  obtain ⟨hnodup, hwf2⟩ := hwf
  cases hrec : records with
  | nil => rfl
  | cons hd rest =>
    obtain ⟨p, v⟩ := hd
    subst hrec
    have hprops : ∀ pd ∈ (p, v) :: rest, pd.2.checksum.length = alg.requiredLen ∧
        (∀ c ∈ pd.2.checksum, isLowerHex c = true) ∧ pd.1 ≠ [] ∧
        '\n' ∉ pd.1 ∧ '\r' ∉ pd.1 ∧
        (∀ c, pd.1.getLast? = some c → isPyWs c = false) ∧
        normpath pd.1 = pd.1 ∧ pd.2.root = root := by
      intro pd hpd
      obtain ⟨hroot, hlen, hhex, hpne⟩ := hwf2 pd hpd
      obtain ⟨hpnl, hpcr⟩ := hnl pd hpd
      obtain ⟨hpnorm, hplast⟩ := hextra pd hpd
      exact ⟨hlen, hhex, hpne, hpnl, hpcr, hplast, hpnorm, hroot⟩
    have hne : writeChecksums ((p, v) :: rest) ≠ [] := by
      rw [writeChecksums]
      simp
    have hnocr : '\r' ∉ writeChecksums ((p, v) :: rest) := by
      refine writeChecksums_no_cr ((p, v) :: rest) ?_
      intro pd hpd
      exact ⟨(hprops pd hpd).2.1, (hprops pd hpd).2.2.2.2.1⟩
    show parseChecksumsFold alg root [] (pyLines (writeChecksums ((p, v) :: rest))) =
      (p, v) :: rest
    have hpl : pyLines (writeChecksums ((p, v) :: rest)) =
        splitNlAux [] (writeChecksums ((p, v) :: rest)) := by
      unfold pyLines
      rw [translateNewlines_of_no_cr _ hnocr]
      obtain ⟨c, cs, hwc⟩ := List.exists_cons_of_ne_nil hne
      rw [hwc]
    rw [hpl]
    have := parseChecksumsFold_write alg root ((p, v) :: rest) [] hprops hnodup
      (fun pd _ => List.not_mem_nil pd.1)
    simpa using this

/-- Witness for `c4_amended` at a concrete well-behaved record set. -/
theorem c4_amended_witness :
    (WellFormedRecords Alg.md5 (strChars "/bk")
      [(strChars "dir/a.txt", CsRec.mk (strChars "/bk")
        (strChars "aaaaaaaaaaaaaaaaaaaaaaaaaaaaaaaa"))] ∧
     NoLineTerminators
      [(strChars "dir/a.txt", CsRec.mk (strChars "/bk")
        (strChars "aaaaaaaaaaaaaaaaaaaaaaaaaaaaaaaa"))]) ∧
    parse_checksums_from_file Alg.md5 (strChars "/bk")
      (some (writeChecksums
        [(strChars "dir/a.txt", CsRec.mk (strChars "/bk")
          (strChars "aaaaaaaaaaaaaaaaaaaaaaaaaaaaaaaa"))])) =
      [(strChars "dir/a.txt", CsRec.mk (strChars "/bk")
        (strChars "aaaaaaaaaaaaaaaaaaaaaaaaaaaaaaaa"))] :=
  ⟨⟨by decide, by decide⟩,
    c4_amended Alg.md5 (strChars "/bk")
      [(strChars "dir/a.txt", CsRec.mk (strChars "/bk")
        (strChars "aaaaaaaaaaaaaaaaaaaaaaaaaaaaaaaa"))]
      (by decide) (by decide) (by decide)⟩

end FloppyCat
